import Mathlib

/-!
Verification development for the hyperswarm CLI example app: the peer session
layer (ConnectionManager), the message protocol layer (MessageHandler), and the
orchestration around them (HyperswarmCLI).  The JavaScript source is embedded
shallowly: JS objects carrying protocol messages become flat association lists
of JSON values, the connection `Map` becomes an association list with JS `Map`
semantics, and every side effect (history pushes, stream writes, log calls,
outbound send calls) is reified into an explicit effect trace.
-/

namespace HyperswarmCLI

/-! ## JSON values

The wire format of the app is `JSON.stringify` on send (`ConnectionManager`,
lines writing `JSON.stringify(message)`) and `JSON.parse` on receive
(`MessageHandler.parseMessage`).  Every message the app produces is a flat JSON
object whose values are strings and naturals (timestamps come from
`Date.now()`), so the codec is modelled on that fragment: `JVal` is a string or
a natural, `JObj` a key-ordered flat object. -/

inductive JVal where
  | str (s : String)
  | num (n : Nat)
deriving DecidableEq, Repr

/-- A flat JS object as an ordered list of key/value pairs (JS objects keep
property insertion order, and JSON.stringify serializes in that order). -/
abbrev JObj := List (String × JVal)

/-- Lowercase hex digit character for a value below 16, as produced by the
JSON string escaper for control characters. -/
def hexDigitChar (n : Nat) : Char :=
  if n < 10 then Char.ofNat (48 + n) else Char.ofNat (87 + n)

/-- JSON escaping of one character, following the QuoteJSONString algorithm
used by JSON.stringify: quote, backslash, the five short control escapes, a
lowercase \u00xx form for the remaining control characters, and everything
else verbatim. -/
def escChar (c : Char) : List Char :=
  if c = '\x22' then ['\x5c', '\x22']
  else if c = '\x5c' then ['\x5c', '\x5c']
  else if c = '\x08' then ['\x5c', 'b']
  else if c = '\x09' then ['\x5c', 't']
  else if c = '\x0a' then ['\x5c', 'n']
  else if c = '\x0c' then ['\x5c', 'f']
  else if c = '\x0d' then ['\x5c', 'r']
  else if c.toNat < 32 then
    ['\x5c', 'u', '0', '0', hexDigitChar (c.toNat / 16), hexDigitChar (c.toNat % 16)]
  else [c]

/-- JSON escaping of a whole string body (no surrounding quotes yet). -/
def escStr (s : String) : List Char := s.data.flatMap escChar

/-- A JSON string literal: quote, escaped body, quote. -/
def quoteStr (s : String) : List Char := '\x22' :: (escStr s ++ ['\x22'])

/-- Decimal digit characters of a natural, most significant first, prepended
to an accumulator. -/
def natCharsAux (n : Nat) (acc : List Char) : List Char :=
  if n < 10 then Char.ofNat (48 + n % 10) :: acc
  else natCharsAux (n / 10) (Char.ofNat (48 + n % 10) :: acc)
termination_by n
decreasing_by exact Nat.div_lt_self (by omega) (by omega)

/-- Decimal digit characters of a natural, as JSON.stringify renders a
nonnegative integer. -/
def natChars (n : Nat) : List Char := natCharsAux n []

/-- Serialized characters of one JSON value. -/
def jvalChars : JVal → List Char
  | .str s => quoteStr s
  | .num n => natChars n

/-- Serialized characters of the members of a flat object, comma separated. -/
def fieldsChars : JObj → List Char
  | [] => []
  | (k, v) :: rest =>
    quoteStr k ++ ':' :: jvalChars v ++ (if rest.isEmpty then [] else ',' :: fieldsChars rest)

/-- The model of JSON.stringify on a flat object of strings and naturals. -/
def jsonStringify (o : JObj) : String := ⟨'\x7b' :: (fieldsChars o ++ ['\x7d'])⟩

/-- Numeric value of one hex digit character, upper or lower case. -/
def hexDigitVal (c : Char) : Option Nat :=
  if 48 ≤ c.toNat ∧ c.toNat ≤ 57 then some (c.toNat - 48)
  else if 97 ≤ c.toNat ∧ c.toNat ≤ 102 then some (c.toNat - 87)
  else if 65 ≤ c.toNat ∧ c.toNat ≤ 70 then some (c.toNat - 55)
  else none

/-- Single-character JSON escapes accepted after a backslash. -/
def unescChar (c : Char) : Option Char :=
  if c = '\x22' then some '\x22'
  else if c = '\x5c' then some '\x5c'
  else if c = '/' then some '/'
  else if c = 'b' then some '\x08'
  else if c = 'f' then some '\x0c'
  else if c = 'n' then some '\x0a'
  else if c = 'r' then some '\x0d'
  else if c = 't' then some '\x09'
  else none

/-- Parse the body of a JSON string after its opening quote, undoing escapes,
with the characters read so far accumulated in reverse. -/
def parseStrAux : List Char → List Char → Option (String × List Char)
  | _, [] => none
  | acc, c :: rest =>
    if c = '\x22' then some (⟨acc.reverse⟩, rest)
    else if c = '\x5c' then
      match rest with
      | [] => none
      | e :: rest2 =>
        if e = 'u' then
          match rest2 with
          | a :: b :: c2 :: d :: rest3 =>
            match hexDigitVal a, hexDigitVal b, hexDigitVal c2, hexDigitVal d with
            | some va, some vb, some vc, some vd =>
              parseStrAux (Char.ofNat (((va * 16 + vb) * 16 + vc) * 16 + vd) :: acc) rest3
            | _, _, _, _ => none
          | _ => none
        else
          match unescChar e with
          | some ch => parseStrAux (ch :: acc) rest2
          | none => none
    else parseStrAux (c :: acc) rest

/-- True exactly on decimal digit characters. -/
def isDigitChar (c : Char) : Bool := 48 ≤ c.toNat && c.toNat ≤ 57

/-- Split a leading run of decimal digits off a character list. -/
def takeDigitsL : List Char → List Char × List Char
  | c :: cs =>
    if isDigitChar c then
      let (ds, r) := takeDigitsL cs
      (c :: ds, r)
    else ([], c :: cs)
  | [] => ([], [])

/-- Natural denoted by a list of decimal digit characters. -/
def digitsToNat (ds : List Char) : Nat :=
  ds.foldl (fun a c => a * 10 + (c.toNat - 48)) 0

/-- Parse one JSON value of the fragment: a string literal or a natural. -/
def parseJVal : List Char → Option (JVal × List Char)
  | [] => none
  | c :: rest =>
    if c = '\x22' then
      match parseStrAux [] rest with
      | some (s, r) => some (.str s, r)
      | none => none
    else if isDigitChar c then
      let (ds, r) := takeDigitsL (c :: rest)
      some (.num (digitsToNat ds), r)
    else none

/-- Parse the members of a flat object after the opening brace, up to and
including the closing brace.  The fuel argument bounds the number of members
and makes the recursion structural. -/
def parseFieldsAux : Nat → List Char → Option (JObj × List Char)
  | 0, _ => none
  | fuel + 1, cs =>
    match cs with
    | [] => none
    | c :: rest =>
      if c = '\x22' then
        match parseStrAux [] rest with
        | some (k, ':' :: rest2) =>
          match parseJVal rest2 with
          | some (v, ',' :: rest3) =>
            match parseFieldsAux fuel rest3 with
            | some (o, r) => some ((k, v) :: o, r)
            | none => none
          | some (v, '\x7d' :: rest3) => some ([(k, v)], rest3)
          | _ => none
        | _ => none
      else none

/-- The model of JSON.parse on the flat-object fragment: an opening brace,
members, a closing brace, and nothing after it.  Byte sequences outside the
fragment are Malformed and yield none (JSON.parse throws). -/
def jsonParse (s : String) : Option JObj :=
  match s.data with
  | '\x7b' :: '\x7d' :: rest => if rest.isEmpty then some [] else none
  | '\x7b' :: cs =>
    match parseFieldsAux (cs.length + 1) cs with
    | some (o, []) => some o
    | _ => none
  | _ => none

/-! ## Codec round trip: strings -/

/-- Hex digit characters decode back to the value they encode. -/
theorem hexDigitVal_hexDigitChar (d : Nat) (h : d < 16) :
    hexDigitVal (hexDigitChar d) = some d := by
  interval_cases d <;> decide

/-- Parsing one escaped character undoes the escaping. -/
theorem parseStrAux_escChar (c : Char) (acc rest : List Char) :
    parseStrAux acc (escChar c ++ rest) = parseStrAux (c :: acc) rest := by
  rw [escChar]
  split_ifs with h1 h2 h3 h4 h5 h6 h7 h8
  · subst h1; rw [parseStrAux.eq_def]; simp [unescChar]
  · subst h2; rw [parseStrAux.eq_def]; simp [unescChar]
  · subst h3; rw [parseStrAux.eq_def]; simp [unescChar]
  · subst h4; rw [parseStrAux.eq_def]; simp [unescChar]
  · subst h5; rw [parseStrAux.eq_def]; simp [unescChar]
  · subst h6; rw [parseStrAux.eq_def]; simp [unescChar]
  · subst h7; rw [parseStrAux.eq_def]; simp [unescChar]
  · have hdiv : c.toNat / 16 < 16 := by omega
    have hmod : c.toNat % 16 < 16 := Nat.mod_lt _ (by omega)
    rw [parseStrAux.eq_def]
    simp only [List.cons_append, hexDigitVal_hexDigitChar _ hdiv,
      hexDigitVal_hexDigitChar _ hmod, show hexDigitVal '0' = some 0 from rfl]
    simp only [show ('\x5c' : Char) = '\x22' ↔ False by simp, if_false, reduceIte]
    have hx : ((0 * 16 + 0) * 16 + c.toNat / 16) * 16 + c.toNat % 16 = c.toNat := by omega
    rw [hx, Char.ofNat_toNat, List.nil_append]
  · simp only [List.singleton_append]
    rw [parseStrAux.eq_def]
    simp [h1, h2]

/-- Parsing an escaped run stops exactly at the closing quote, returning the
original characters after the accumulator. -/
theorem parseStrAux_escList (cs : List Char) : ∀ (acc rest : List Char),
    parseStrAux acc (cs.flatMap escChar ++ '\x22' :: rest)
      = some (⟨acc.reverse ++ cs⟩, rest) := by
  induction cs with
  | nil =>
    intro acc rest
    rw [List.flatMap_nil, List.nil_append, parseStrAux.eq_def]
    simp
  | cons c cs ih =>
    intro acc rest
    rw [List.flatMap_cons, List.append_assoc, parseStrAux_escChar, ih]
    simp

/-- The string round trip: parsing an escaped string body recovers it. -/
theorem parseStrAux_escStr (s : String) (rest : List Char) :
    parseStrAux [] (escStr s ++ '\x22' :: rest) = some (s, rest) := by
  rw [escStr, parseStrAux_escList]
  rfl

/-! ## Codec round trip: numbers -/

/-- The accumulator of the digit renderer just rides along on the right. -/
theorem natCharsAux_shift (n : Nat) : ∀ acc : List Char,
    natCharsAux n acc = natCharsAux n [] ++ acc := by
  induction n using Nat.strongRecOn with
  | _ n ih =>
    intro acc
    conv_lhs => rw [natCharsAux.eq_def]
    conv_rhs => rw [natCharsAux.eq_def]
    by_cases h : n < 10
    · simp [h]
    · simp only [if_neg h]
      rw [ih (n / 10) (Nat.div_lt_self (by omega) (by omega)),
        ih (n / 10) (Nat.div_lt_self (by omega) (by omega))
          (Char.ofNat (48 + n % 10) :: [])]
      simp

/-- Digit characters of a natural, in last-digit-at-the-end form. -/
theorem natChars_snoc (n : Nat) :
    natChars n = (if n < 10 then [] else natChars (n / 10))
      ++ [Char.ofNat (48 + n % 10)] := by
  rw [natChars, natCharsAux.eq_def]
  by_cases h : n < 10
  · simp [h]
  · rw [if_neg h, if_neg h, natCharsAux_shift]
    rfl

/-- The character of a digit value carries exactly that value and is a digit. -/
theorem digitChar_spec (k : Nat) (h : k < 10) :
    (Char.ofNat (48 + k)).toNat = 48 + k ∧ isDigitChar (Char.ofNat (48 + k)) = true := by
  interval_cases k <;> exact ⟨rfl, rfl⟩

/-- Every character of a rendered natural is a decimal digit. -/
theorem natChars_digits (n : Nat) : ∀ c ∈ natChars n, isDigitChar c = true := by
  induction n using Nat.strongRecOn with
  | _ n ih =>
    intro c hc
    rw [natChars_snoc] at hc
    rcases List.mem_append.mp hc with h | h
    · by_cases h10 : n < 10
      · simp [h10] at h
      · exact ih (n / 10) (Nat.div_lt_self (by omega) (by omega)) c (by simpa [h10] using h)
    · rw [List.mem_singleton] at h
      subst h
      exact (digitChar_spec (n % 10) (Nat.mod_lt _ (by omega))).2

/-- A rendered natural always has at least one digit. -/
theorem natChars_ne_nil (n : Nat) : natChars n ≠ [] := by
  rw [natChars_snoc]
  simp

/-- True when the input cannot extend a digit run: empty, or headed by a
non-digit (in particular by a comma or a closing brace). -/
def nonDigitHead : List Char → Bool
  | [] => true
  | c :: _ => !isDigitChar c

/-- Cons of a non-digit cannot extend a digit run, whatever the tail. -/
theorem nonDigitHead_cons (c : Char) (t : List Char) (h : isDigitChar c = false) :
    nonDigitHead (c :: t) = true := by
  simp [nonDigitHead, h]

/-- The digit splitter does not move past a non-digit head. -/
theorem takeDigitsL_stop (cs : List Char) (h : nonDigitHead cs = true) :
    takeDigitsL cs = ([], cs) := by
  cases cs with
  | nil => rfl
  | cons c t =>
    have hc : isDigitChar c = false := by simpa [nonDigitHead] using h
    rw [takeDigitsL.eq_def]
    simp [hc]

/-- The digit splitter consumes exactly a leading digit run. -/
theorem takeDigitsL_run (ds : List Char) (hds : ∀ c ∈ ds, isDigitChar c = true)
    (rest : List Char) (hrest : nonDigitHead rest = true) :
    takeDigitsL (ds ++ rest) = (ds, rest) := by
  induction ds with
  | nil => simpa using takeDigitsL_stop rest hrest
  | cons d ds ih =>
    have hd : isDigitChar d = true := hds d (List.mem_cons_self _ _)
    have hih := ih (fun c hc => hds c (List.mem_cons_of_mem _ hc))
    rw [List.cons_append, takeDigitsL.eq_def]
    simp [hd, hih]

/-- Appending one digit character multiplies the value by ten and adds it. -/
theorem digitsToNat_snoc (ds : List Char) (c : Char) :
    digitsToNat (ds ++ [c]) = digitsToNat ds * 10 + (c.toNat - 48) := by
  rw [digitsToNat, digitsToNat, List.foldl_append]
  rfl

/-- The number round trip: the digits of a natural evaluate back to it. -/
theorem digitsToNat_natChars (n : Nat) : digitsToNat (natChars n) = n := by
  induction n using Nat.strongRecOn with
  | _ n ih =>
    rw [natChars_snoc, digitsToNat_snoc,
      (digitChar_spec (n % 10) (Nat.mod_lt _ (by omega))).1]
    by_cases h : n < 10
    · rw [if_pos h]
      show 0 * 10 + (48 + n % 10 - 48) = n
      omega
    · rw [if_neg h, ih (n / 10) (Nat.div_lt_self (by omega) (by omega))]
      omega

/-! ## Codec round trip: values, members, whole objects -/

/-- Parsing a rendered string value recovers it. -/
theorem parseJVal_str (s : String) (rest : List Char) :
    parseJVal (quoteStr s ++ rest) = some (.str s, rest) := by
  rw [quoteStr, List.cons_append, List.append_assoc]
  rw [parseJVal.eq_def]
  simp [parseStrAux_escStr]

/-- Parsing a rendered natural value recovers it, given that what follows
cannot extend the digit run. -/
theorem parseJVal_num (n : Nat) (rest : List Char) (hrest : nonDigitHead rest = true) :
    parseJVal (natChars n ++ rest) = some (.num n, rest) := by
  obtain ⟨d, ds, hd⟩ : ∃ d ds, natChars n = d :: ds := by
    cases hcs : natChars n with
    | nil => exact absurd hcs (natChars_ne_nil n)
    | cons d ds => exact ⟨d, ds, rfl⟩
  have hdig : isDigitChar d = true :=
    natChars_digits n d (by rw [hd]; exact List.mem_cons_self _ _)
  have hquote : ¬ d = '\x22' := by
    intro h
    rw [h] at hdig
    exact absurd hdig (by decide)
  have hrun : takeDigitsL ((d :: ds) ++ rest) = (d :: ds, rest) :=
    takeDigitsL_run (d :: ds) (fun c hc => natChars_digits n c (hd ▸ hc)) rest hrest
  rw [hd, List.cons_append, parseJVal.eq_def]
  simp only [if_neg hquote, hdig, if_true, ← List.cons_append, hrun]
  have hval : digitsToNat (d :: ds) = n := hd ▸ digitsToNat_natChars n
  rw [hval]

/-- Parsing any rendered value of the fragment recovers it. -/
theorem parseJVal_chars (v : JVal) (rest : List Char) (hrest : nonDigitHead rest = true) :
    parseJVal (jvalChars v ++ rest) = some (v, rest) := by
  cases v with
  | str s => exact parseJVal_str s rest
  | num n => exact parseJVal_num n rest hrest

/-- Parsing rendered members consumes them and the closing brace, for any
fuel of at least the member count. -/
theorem parseFieldsAux_round (o : JObj) : ∀ (fuel : Nat) (rest : List Char),
    o ≠ [] → o.length ≤ fuel →
    parseFieldsAux fuel (fieldsChars o ++ '\x7d' :: rest) = some (o, rest) := by
  induction o with
  | nil => intro fuel rest h _; exact absurd rfl h
  | cons f o' ih =>
    obtain ⟨k, v⟩ := f
    intro fuel rest _ hlen
    cases fuel with
    | zero => simp at hlen
    | succ f =>
      rw [fieldsChars]
      cases o' with
      | nil =>
        have htail : (quoteStr k ++ ':' :: jvalChars v ++ (if ([] : JObj).isEmpty then [] else ',' :: fieldsChars [])) ++ '\x7d' :: rest
            = '\x22' :: (escStr k ++ '\x22' :: (':' :: (jvalChars v ++ '\x7d' :: rest))) := by
          rw [quoteStr]
          simp
        rw [htail, parseFieldsAux.eq_def]
        simp [parseStrAux_escStr, parseJVal_chars v ('\x7d' :: rest) (nonDigitHead_cons _ _ (by decide))]
      | cons g os =>
        have htail : (quoteStr k ++ ':' :: jvalChars v ++ (if (g :: os : JObj).isEmpty then [] else ',' :: fieldsChars (g :: os))) ++ '\x7d' :: rest
            = '\x22' :: (escStr k ++ '\x22' :: (':' :: (jvalChars v ++ ',' :: (fieldsChars (g :: os) ++ '\x7d' :: rest)))) := by
          rw [quoteStr]
          simp
        rw [htail, parseFieldsAux.eq_def]
        have hrec := ih f rest (by simp) (by simpa using Nat.lt_succ_iff.mp (by simpa using hlen))
        simp [parseStrAux_escStr, parseJVal_chars v (',' :: (fieldsChars (g :: os) ++ '\x7d' :: rest)) (nonDigitHead_cons _ _ (by decide)), hrec]

/-- Each member contributes at least one character to the rendering. -/
theorem length_le_fieldsChars (o : JObj) : o.length ≤ (fieldsChars o).length := by
  induction o with
  | nil => simp [fieldsChars]
  | cons f o' ih =>
    obtain ⟨k, v⟩ := f
    rw [fieldsChars]
    cases o' with
    | nil => simp [quoteStr]
    | cons g os =>
      simp only [List.isEmpty_cons, Bool.false_eq_true, if_false, List.length_cons,
        List.length_append, quoteStr]
      simp only [List.length_cons, List.length_append, List.length_singleton] at *
      omega

/-- The object round trip: the model of JSON.parse recovers exactly what the
model of JSON.stringify produced, for every flat object of the fragment. -/
theorem jsonParse_jsonStringify (o : JObj) : jsonParse (jsonStringify o) = some o := by
  cases o with
  | nil => rfl
  | cons f o' =>
    have hne : (f :: o' : JObj) ≠ [] := by simp
    have hlen : (f :: o').length ≤ (fieldsChars (f :: o') ++ ['\x7d']).length + 1 := by
      have := length_le_fieldsChars (f :: o')
      simp only [List.length_append, List.length_singleton]
      omega
    have hround := parseFieldsAux_round (f :: o')
      ((fieldsChars (f :: o') ++ ['\x7d']).length + 1) [] hne hlen
    obtain ⟨k, v⟩ := f
    obtain ⟨t, ht⟩ : ∃ t, fieldsChars ((k, v) :: o') = '\x22' :: t := by
      rw [fieldsChars, quoteStr]
      exact ⟨_, rfl⟩
    have hx : (fieldsChars ((k, v) :: o') ++ ['\x7d'] : List Char)
        = '\x22' :: (t ++ ['\x7d']) := by
      rw [ht]; rfl
    rw [jsonStringify, jsonParse.eq_def]
    rw [hx]
    rw [hx] at hround
    simp only [List.length_cons, List.length_append, List.length_singleton,
      List.length_nil] at hround
    simp [hround]

/-! ## The message protocol layer

A protocol message is one of the five variants of section 3 of the design.
The field lists mirror the literal object expressions of the source:
createWelcomeMessage, createBroadcastMessage and createPingMessage in
MessageHandler.js, and the pong object built inline by handlePingMessage.
The binder written sender below models the JS property named from, which
Lean reserves as a keyword. -/

inductive Message where
  | welcome (sender : String) (message : String) (timestamp : Nat)
  | chat (sender : String) (message : String) (timestamp : Nat)
  | broadcast (sender : String) (message : String) (timestamp : Nat)
  | ping (sender : String) (timestamp : Nat)
  | pong (sender : String) (originalTimestamp : Nat) (timestamp : Nat)
deriving DecidableEq, Repr

/-- The JS object a message denotes, with properties in the insertion order
of the corresponding object literal in the source. -/
def messageFields : Message → JObj
  | .welcome f msg ts =>
    [("type", .str "welcome"), ("from", .str f), ("message", .str msg), ("timestamp", .num ts)]
  | .chat f msg ts =>
    [("type", .str "chat"), ("from", .str f), ("message", .str msg), ("timestamp", .num ts)]
  | .broadcast f msg ts =>
    [("type", .str "broadcast"), ("from", .str f), ("message", .str msg), ("timestamp", .num ts)]
  | .ping f ts =>
    [("type", .str "ping"), ("from", .str f), ("timestamp", .num ts)]
  | .pong f ots ts =>
    [("type", .str "pong"), ("from", .str f), ("originalTimestamp", .num ots), ("timestamp", .num ts)]

/-- Encoding of a message: JSON.stringify of the object it denotes, exactly
what conn.write sends in ConnectionManager. -/
def encode (m : Message) : String := jsonStringify (messageFields m)

/-- Which protocol message a raw parsed object denotes, if any.  The source
keeps the raw object (parseMessage is JSON.parse and nothing more), so this
is the representation function identifying objects with Message values, not
a validation pass performed by the code. -/
def messageOfFields : JObj → Option Message
  | [("type", .str "welcome"), ("from", .str f), ("message", .str msg), ("timestamp", .num ts)] =>
    some (.welcome f msg ts)
  | [("type", .str "chat"), ("from", .str f), ("message", .str msg), ("timestamp", .num ts)] =>
    some (.chat f msg ts)
  | [("type", .str "broadcast"), ("from", .str f), ("message", .str msg), ("timestamp", .num ts)] =>
    some (.broadcast f msg ts)
  | [("type", .str "ping"), ("from", .str f), ("timestamp", .num ts)] =>
    some (.ping f ts)
  | [("type", .str "pong"), ("from", .str f), ("originalTimestamp", .num ots), ("timestamp", .num ts)] =>
    some (.pong f ots ts)
  | _ => none

/-- Decoding of inbound bytes to a protocol message: JSON.parse followed by
the representation function. -/
def decode (s : String) : Option Message := (jsonParse s).bind messageOfFields

/-! ## JS object helpers used by the handlers -/

/-- JS property read: the value bound to a key, if present. -/
def objGet (o : JObj) (k : String) : Option JVal :=
  match o with
  | [] => none
  | (k2, v) :: rest => if k2 = k then some v else objGet rest k

/-- JS object update as performed by a spread followed by a property: an
existing key keeps its position and receives the new value, a new key is
appended at the end. -/
def objSet (o : JObj) (k : String) (v : JVal) : JObj :=
  match o with
  | [] => [(k, v)]
  | (k2, v2) :: rest => if k2 = k then (k2, v) :: rest else (k2, v2) :: objSet rest k v

/-! ## Effects

Every observable side effect of the handlers is reified: a history push, a
log call of some level, a call to the injected sendToPeer callback, a
conn.write on a stream, a conn.end during shutdown. -/

inductive LogKind where
  | error
  | warn
  | info
  | success
  | peer
  | debug
  | connection
deriving DecidableEq, Repr

inductive Effect where
  | histAppend (entry : JObj)
  | log (kind : LogKind)
  | sendCall (peerId : String) (message : JObj)
  | write (peerId : String) (payload : String) (ok : Bool)
  | streamEnd (peerId : String)
deriving DecidableEq, Repr

/-! ## MessageHandler

Pure embedding of lib/MessageHandler.js.  The handler objects name (the
node display name) and the current clock value Date.now() are passed as
arguments; message history is threaded explicitly. -/

/-- MessageHandler.createWelcomeMessage. -/
def createWelcomeMessage (name : String) (now : Nat) : JObj :=
  [("type", .str "welcome"), ("from", .str name),
   ("message", .str ("Hello from " ++ name ++ "!")), ("timestamp", .num now)]

/-- MessageHandler.createBroadcastMessage. -/
def createBroadcastMessage (name : String) (message : String) (now : Nat) : JObj :=
  [("type", .str "broadcast"), ("from", .str name),
   ("message", .str message), ("timestamp", .num now)]

/-- MessageHandler.createPingMessage. -/
def createPingMessage (name : String) (now : Nat) : JObj :=
  [("type", .str "ping"), ("from", .str name), ("timestamp", .num now)]

/-- MessageHandler.parseMessage: JSON.parse of the data, nothing else.  A
throw (malformed input) is the none case. -/
def parseMessage (data : String) : Option JObj := jsonParse data

/-- The entry recordMessage pushes: the spread of the message plus the
peerId and received properties. -/
def historyEntry (message : JObj) (peerId : String) (now : Nat) : JObj :=
  objSet (objSet message "peerId" (.str peerId)) "received" (.num now)

/-- MessageHandler.recordMessage: push one entry onto the history. -/
def recordMessage (message : JObj) (peerId : String) (now : Nat)
    (messageHistory : List JObj) : List JObj :=
  messageHistory ++ [historyEntry message peerId now]

/-- The pong object built inline by handlePingMessage.  Its
originalTimestamp is the raw timestamp property of the incoming ping; when
that property is absent the JS value is undefined and JSON.stringify drops
the property, modelled by omitting the pair. -/
def pongReply (name : String) (now : Nat) (origTs : Option JVal) : JObj :=
  [("type", .str "pong"), ("from", .str name)]
    ++ (match origTs with
        | some v => [("originalTimestamp", v)]
        | none => [])
    ++ [("timestamp", .num now)]

/-- MessageHandler.handlePingMessage: one call to the injected sendToPeer
callback, aimed back at the peer the ping came from. -/
def handlePingMessage (name : String) (now : Nat) (peerId : String) (message : JObj) :
    List Effect :=
  [.sendCall peerId (pongReply name now (objGet message "timestamp"))]

/-- MessageHandler.processMessageByType: the switch on message.type.
welcome, chat and broadcast only log; ping replies with a pong; pong logs
the computed latency; anything else hits the default branch and logs a
warning. -/
def processMessageByType (name : String) (now : Nat) (peerId : String) (message : JObj) :
    List Effect :=
  match objGet message "type" with
  | some (.str "welcome") => [.log .success]
  | some (.str "chat") => [.log .info]
  | some (.str "broadcast") => [.log .info]
  | some (.str "ping") => handlePingMessage name now peerId message
  | some (.str "pong") => [.log .success]
  | _ => [.log .warn]

/-- MessageHandler.handleIncomingMessage: parse; on success record the
entry, log the arrival, then dispatch by type; on a parse throw, only an
error log.  Returns the new history and the ordered effect trace. -/
def handleIncomingMessage (name : String) (now : Nat) (peerId : String) (data : String)
    (messageHistory : List JObj) : List JObj × List Effect :=
  match parseMessage data with
  | none => (messageHistory, [.log .error])
  | some message =>
    (recordMessage message peerId now messageHistory,
      .histAppend (historyEntry message peerId now) :: .log .peer
        :: processMessageByType name now peerId message)

/-! ## ConnectionManager

Embedding of lib/ConnectionManager.js.  A live duplex stream is a Conn: an
object identity (distinct JS objects have distinct identities), the remote
public key bytes, and whether conn.write currently succeeds (a failing
write throws in JS; the flag decides the ok bit of the write effect and
whether the catch branch logs).  The connections JS Map is an association
list with Map semantics; messageHistory is the shared history array. -/

structure Conn where
  oid : Nat
  remotePublicKey : List Nat
  writeOk : Bool
deriving DecidableEq, Repr

structure AppState where
  connections : List (String × Conn)
  messageHistory : List JObj
deriving DecidableEq, Repr

/-- Map.prototype.get: the value under a key, if present. -/
def mapGet (m : List (String × Conn)) (k : String) : Option Conn :=
  match m with
  | [] => none
  | (k2, c) :: rest => if k2 = k then some c else mapGet rest k

/-- Map.prototype.set: replace in place when the key exists (it keeps its
insertion position), append otherwise. -/
def mapSet (m : List (String × Conn)) (k : String) (c : Conn) : List (String × Conn) :=
  match m with
  | [] => [(k, c)]
  | (k2, c2) :: rest => if k2 = k then (k2, c) :: rest else (k2, c2) :: mapSet rest k c

/-- Map.prototype.delete: drop the binding of a key, if present. -/
def mapDelete (m : List (String × Conn)) (k : String) : List (String × Conn) :=
  match m with
  | [] => []
  | (k2, c2) :: rest => if k2 = k then rest else (k2, c2) :: mapDelete rest k

/-- Two lowercase hex characters of one byte, as b4a.toString(buf, hex)
renders each byte. -/
def byteHexChars (b : Nat) : List Char :=
  [hexDigitChar (b % 256 / 16), hexDigitChar (b % 16)]

/-- Lowercase hex rendering of a byte buffer. -/
def hexOfBytes (bs : List Nat) : String := ⟨bs.flatMap byteHexChars⟩

/-- ConnectionManager.generatePeerId: the first 8 hex characters of the
remote public key. -/
def generatePeerId (c : Conn) : String := (hexOfBytes c.remotePublicKey).take 8

/-- The spec name SendError (section 7).  The source sendToPeer returns no
value in either case, so the model always reports none; the type records
what a caller-visible error result would have to look like. -/
inductive SendError where
  | noSuchPeer
  | writeFailed
deriving DecidableEq, Repr

/-- ConnectionManager.sendToPeer: look the peer up; write the serialized
message when present, silently do nothing when absent.  The JS function has
no return statement, so its value is undefined in both branches: the error
component of the result is always none. -/
def sendToPeer (s : AppState) (peerId : String) (message : JObj) :
    AppState × List Effect × Option SendError :=
  match mapGet s.connections peerId with
  | some conn => (s, [.write peerId (jsonStringify message) conn.writeOk], none)
  | none => (s, [], none)

/-- The spec name BroadcastReport (section 4.2): the counts the spec says
broadcast returns. -/
structure BroadcastReport where
  attempted : Nat
  failed : Nat
deriving DecidableEq, Repr

/-- ConnectionManager.broadcast: build the broadcast message once, log, then
try one conn.write per registered session in map order, catching and
logging each individual failure.  The JS function has no return statement,
so the report component is always none. -/
def broadcast (s : AppState) (name message : String) (now : Nat) :
    AppState × List Effect × Option BroadcastReport :=
  let broadcastMsg := createBroadcastMessage name message now
  (s,
    .log .info :: s.connections.flatMap (fun pc =>
      .write pc.1 (jsonStringify broadcastMsg) pc.2.writeOk
        :: (if pc.2.writeOk then [] else [.log .error])),
    none)

/-- ConnectionManager.pingAllPeers: same fan-out shape with a ping message. -/
def pingAllPeers (s : AppState) (name : String) (now : Nat) : AppState × List Effect :=
  let pingMsg := createPingMessage name now
  (s,
    .log .info :: s.connections.flatMap (fun pc =>
      .write pc.1 (jsonStringify pingMsg) pc.2.writeOk
        :: (if pc.2.writeOk then [] else [.log .error])))

/-- ConnectionManager.registerConnection: Map.set plus a connection log. -/
def registerConnection (s : AppState) (peerId : String) (conn : Conn) :
    AppState × List Effect :=
  ({ s with connections := mapSet s.connections peerId conn }, [.log .connection])

/-- ConnectionManager.handleConnection: derive the peer id, register, then
send the welcome message (the data/close/error hooks are modelled by the
event step function below). -/
def handleConnection (name : String) (now : Nat) (s : AppState) (conn : Conn) :
    AppState × List Effect :=
  let peerId := generatePeerId conn
  let r1 := registerConnection s peerId conn
  let r2 := sendToPeer r1.1 peerId (createWelcomeMessage name now)
  (r2.1, r1.2 ++ r2.2.1)

/-- ConnectionManager.onConnectionClose: Map.delete plus a log. -/
def onConnectionClose (s : AppState) (peerId : String) : AppState × List Effect :=
  ({ s with connections := mapDelete s.connections peerId }, [.log .connection])

/-- ConnectionManager.onConnectionError: a log and nothing else. -/
def onConnectionError (s : AppState) (_peerId : String) : AppState × List Effect :=
  (s, [.log .error])

/-- The data hook attached per connection: feed the bytes to
MessageHandler.handleIncomingMessage against the shared history. -/
def connDataEvent (name : String) (now : Nat) (s : AppState) (peerId : String)
    (payload : String) : AppState × List Effect :=
  let r := handleIncomingMessage name now peerId payload s.messageHistory
  ({ s with connections := s.connections, messageHistory := r.1 }, r.2)

/-- ConnectionManager.closeAllConnections: conn.end on every session, in
map order, logging each; the map itself is not touched. -/
def closeAllConnections (s : AppState) : AppState × List Effect :=
  (s, s.connections.flatMap (fun pc => [.streamEnd pc.1, .log .debug]))

/-! ## The event step function

One discrete event delivered by the host event loop, and its effect on the
app state.  This is the composition root of index/main: swarm connection
events reach handleConnection, per-stream data/close/error hooks reach the
three handlers above, and user commands reach broadcast and pingAllPeers. -/

inductive Ev where
  | connection (conn : Conn) (now : Nat)
  | data (peerId : String) (payload : String) (now : Nat)
  | close (peerId : String)
  | error (peerId : String)
  | userBroadcast (text : String) (now : Nat)
  | userPing (now : Nat)
  | shutdown
deriving DecidableEq, Repr

/-- Dispatch one event. -/
def step (name : String) (s : AppState) (e : Ev) : AppState × List Effect :=
  match e with
  | .connection conn now => handleConnection name now s conn
  | .data peerId payload now => connDataEvent name now s peerId payload
  | .close peerId => onConnectionClose s peerId
  | .error peerId => onConnectionError s peerId
  | .userBroadcast text now =>
    let r := broadcast s name text now
    (r.1, r.2.1)
  | .userPing now => pingAllPeers s name now
  | .shutdown => closeAllConnections s

/-- Fold a whole event sequence. -/
def run (name : String) (s : AppState) (evs : List Ev) : AppState :=
  evs.foldl (fun st e => (step name st e).1) s

/-! ## The peer discovery poll

Embedding of startPeerDiscoveryCheck in the main entry point: up to 6
iterations of await delay(5000) each, continuing while the connection
count is still zero and breaking as soon as it is not.  The inputs are the
connection count observed after each completed wait, and the iteration
during whose wait the AbortController fires, if any. -/

inductive PollOutcome where
  | exhausted
  | foundPeers
  | cancelled
deriving DecidableEq, Repr

structure PollResult where
  waitsCompleted : Nat
  outcome : PollOutcome
  loggedAsError : Bool
deriving DecidableEq, Repr

/-- The catch branch of startPeerDiscoveryCheck: an AbortError only gets a
debug line, anything else an error log.  The only exception the loop body
can raise is the AbortError of the cancelled delay. -/
def catchIsError (errName : String) : Bool := !(errName == "AbortError")

/-- The loop, structurally recursive on the remaining iteration budget.
Iteration i first awaits the delay (cancelled when the abort signal fires
during it), then checks the connection count. -/
def discoveryIter (counts : Nat → Nat) (abortAt : Option Nat) : Nat → Nat → PollResult
  | i, 0 => ⟨i, .exhausted, false⟩
  | i, r + 1 =>
    if abortAt = some i then ⟨i, .cancelled, catchIsError "AbortError"⟩
    else if counts i = 0 then discoveryIter counts abortAt (i + 1) r
    else ⟨i + 1, .foundPeers, false⟩

/-- startPeerDiscoveryCheck: six iterations of five seconds starting from
iteration zero. -/
def startPeerDiscoveryCheck (counts : Nat → Nat) (abortAt : Option Nat) : PollResult :=
  discoveryIter counts abortAt 0 6

/-! ## Observation helpers on effect traces -/

/-- The sendToPeer callback invocations in a trace, in order. -/
def sendCallsOf (effects : List Effect) : List (String × JObj) :=
  effects.filterMap (fun e =>
    match e with
    | .sendCall p m => some (p, m)
    | _ => none)

/-- The conn.write attempts in a trace, in order, with their success bit. -/
def writeAttemptsOf (effects : List Effect) : List (String × Bool) :=
  effects.filterMap (fun e =>
    match e with
    | .write p _ ok => some (p, ok)
    | _ => none)

/-- A fan-out loop in map order attempts exactly one write per session,
with each session's own success bit, regardless of other sessions' bits. -/
theorem writeAttemptsOf_fanout (payload : String) (conns : List (String × Conn)) :
    writeAttemptsOf (conns.flatMap (fun pc =>
        .write pc.1 payload pc.2.writeOk :: (if pc.2.writeOk then [] else [.log .error])))
      = conns.map (fun pc => (pc.1, pc.2.writeOk)) := by
  induction conns with
  | nil => rfl
  | cons pc rest ih =>
    rw [List.flatMap_cons, writeAttemptsOf, List.filterMap_append]
    rw [writeAttemptsOf] at ih
    rw [ih]
    by_cases h : pc.2.writeOk <;> simp [h]

/-! ## Claim theorems -/

/-- Claim C4: for every message m of the five protocol variants, decoding
the encoding of m yields m again; equivalently, JSON.parse applied to
JSON.stringify of the object m denotes returns exactly that object.  The
round trip needs no validity hypothesis: it holds for every message value,
in particular for every valid one. -/
theorem claim_c4_decode_encode_roundtrip (m : Message) :
    decode (encode m) = some m ∧ jsonParse (encode m) = some (messageFields m) := by
  have hp : jsonParse (encode m) = some (messageFields m) := jsonParse_jsonStringify _
  refine ⟨?_, hp⟩
  rw [decode, hp, Option.some_bind]
  cases m <;> rfl

/-- Claim C6: broadcast with N registered sessions issues exactly N write
attempts, one per session in map order, each carrying that session's own
success bit (so one session's failure prevents no other session's write),
and it leaves the whole state, in particular the registry, unchanged. -/
theorem claim_c6_broadcast_fanout (s : AppState) (name text : String) (now : Nat) :
    writeAttemptsOf (broadcast s name text now).2.1
        = s.connections.map (fun pc => (pc.1, pc.2.writeOk))
      ∧ (writeAttemptsOf (broadcast s name text now).2.1).length = s.connections.length
      ∧ (broadcast s name text now).1 = s := by
  have h : writeAttemptsOf (broadcast s name text now).2.1
      = s.connections.map (fun pc => (pc.1, pc.2.writeOk)) := by
    rw [broadcast]
    rw [show (AppState.mk s.connections s.messageHistory, Effect.log .info :: s.connections.flatMap (fun pc => .write pc.1 (jsonStringify (createBroadcastMessage name text now)) pc.2.writeOk :: (if pc.2.writeOk then [] else [.log .error])), (none : Option BroadcastReport)).2.1 = Effect.log .info :: s.connections.flatMap (fun pc => .write pc.1 (jsonStringify (createBroadcastMessage name text now)) pc.2.writeOk :: (if pc.2.writeOk then [] else [.log .error])) from rfl]
    rw [writeAttemptsOf, List.filterMap_cons]
    rw [← writeAttemptsOf, writeAttemptsOf_fanout]
  refine ⟨h, by rw [h]; exact List.length_map _ _, rfl⟩

/-- Claim C2 counterexample: sending to an identifier with no registered
session does not return a NoSuchPeer failure; the call returns no error
value at all (the source function has no return statement). -/
theorem claim_c2_counterexample :
    (sendToPeer ⟨[], []⟩ "deadbeef" [("type", JVal.str "ping")]).2.2
      ≠ some SendError.noSuchPeer := by
  decide

/-- Claim C2 as amended: for every identifier with no registered session,
sendToPeer performs no write, raises no error and returns no failure value,
leaving the state untouched: a silent no-op rather than a NoSuchPeer
result. -/
theorem claim_c2_send_absent_silent (s : AppState) (peerId : String) (message : JObj)
    (h : mapGet s.connections peerId = none) :
    sendToPeer s peerId message = (s, [], none) := by
  rw [sendToPeer, h]

/-- Claim C2 witness. -/
theorem claim_c2_send_absent_silent_witness :
    sendToPeer ⟨[], []⟩ "deadbeef" [("type", JVal.str "ping")] = (⟨[], []⟩, [], none) :=
  claim_c2_send_absent_silent ⟨[], []⟩ "deadbeef" [("type", JVal.str "ping")] rfl

/-- Claim C10: for every identifier with no registered session and every
message, sendToPeer is a complete silent no-op at its public interface: no
write attempt, an undefined (not an error) return value, and a registry
map and message history both left exactly as they were. -/
theorem claim_c10_send_absent_noop (s : AppState) (peerId : String) (message : JObj)
    (h : mapGet s.connections peerId = none) :
    (sendToPeer s peerId message).1.connections = s.connections
      ∧ (sendToPeer s peerId message).1.messageHistory = s.messageHistory
      ∧ (sendToPeer s peerId message).2.1 = []
      ∧ (sendToPeer s peerId message).2.2 = none := by
  rw [sendToPeer, h]
  exact ⟨rfl, rfl, rfl, rfl⟩

/-- Claim C10 witness. -/
theorem claim_c10_send_absent_noop_witness :
    (sendToPeer ⟨[], [[("type", JVal.str "ping")]]⟩ "cafebabe" []).1.connections = []
      ∧ (sendToPeer ⟨[], [[("type", JVal.str "ping")]]⟩ "cafebabe" []).1.messageHistory
          = [[("type", JVal.str "ping")]]
      ∧ (sendToPeer ⟨[], [[("type", JVal.str "ping")]]⟩ "cafebabe" []).2.1 = []
      ∧ (sendToPeer ⟨[], [[("type", JVal.str "ping")]]⟩ "cafebabe" []).2.2 = none :=
  claim_c10_send_absent_noop ⟨[], [[("type", JVal.str "ping")]]⟩ "cafebabe" [] rfl

/-- Claim C3 counterexample: with zero registered sessions broadcast does
not return the report the claim describes; its return value is undefined
(no return statement in the source), so no report at all comes back. -/
theorem claim_c3_counterexample :
    (broadcast ⟨[], []⟩ "alice" "hi" 0).2.2 ≠ some ⟨0, 0⟩ := by
  decide

/-- Claim C3 as amended: broadcast returns no report at all; with zero
registered sessions it attempts zero writes, appends nothing to the message
history, and its returned value carries no attempted/failed counts. -/
theorem claim_c3_broadcast_empty (s : AppState) (name text : String) (now : Nat)
    (h : s.connections = []) :
    writeAttemptsOf (broadcast s name text now).2.1 = []
      ∧ (broadcast s name text now).1.messageHistory = s.messageHistory
      ∧ (broadcast s name text now).2.2 = none := by
  refine ⟨?_, rfl, rfl⟩
  rw [broadcast]
  simp only [h]
  rfl

/-- Claim C3 witness. -/
theorem claim_c3_broadcast_empty_witness :
    writeAttemptsOf (broadcast ⟨[], []⟩ "alice" "hi" 0).2.1 = []
      ∧ (broadcast ⟨[], []⟩ "alice" "hi" 0).1.messageHistory = ([] : List JObj)
      ∧ (broadcast ⟨[], []⟩ "alice" "hi" 0).2.2 = none :=
  claim_c3_broadcast_empty ⟨[], []⟩ "alice" "hi" 0 rfl

/-- Claim C1: evaluation of the code at the claim's own example input.  The
bytes of the object with type bogus, from x and timestamp 1 are parsed
successfully (parseMessage is JSON.parse and validates nothing), the
message is recorded in the history, and the dispatch falls into the default
branch which only logs a warning: the input is routed and recorded, not
rejected with an InvalidMessage error.  This contradicts the claim; the
repository's own docs and tests (CLAUDE.md, the validateMessage helper in
the integration tests) describe the validation the claim states, so the
code, not the claim, is the slip. -/
theorem claim_c1_invalid_input_recorded :
    parseMessage "\x7b\x22type\x22:\x22bogus\x22,\x22from\x22:\x22x\x22,\x22timestamp\x22:1\x7d"
        = some [("type", JVal.str "bogus"), ("from", JVal.str "x"), ("timestamp", JVal.num 1)]
      ∧ (handleIncomingMessage "n" 5 "p1"
            "\x7b\x22type\x22:\x22bogus\x22,\x22from\x22:\x22x\x22,\x22timestamp\x22:1\x7d" []).1
          = [[("type", JVal.str "bogus"), ("from", JVal.str "x"), ("timestamp", JVal.num 1),
              ("peerId", JVal.str "p1"), ("received", JVal.num 5)]]
      ∧ (handleIncomingMessage "n" 5 "p1"
            "\x7b\x22type\x22:\x22bogus\x22,\x22from\x22:\x22x\x22,\x22timestamp\x22:1\x7d" []).2
          = [.histAppend [("type", JVal.str "bogus"), ("from", JVal.str "x"),
                ("timestamp", JVal.num 1), ("peerId", JVal.str "p1"), ("received", JVal.num 5)],
             .log .peer, .log .warn] := by
  refine ⟨by decide, by decide, by decide⟩

/-- Claim C5: for every decoded inbound message of type ping carrying a
timestamp, routing produces exactly one sendToPeer call, aimed at the same
peer identifier the ping came from, whose pong carries originalTimestamp
equal to the ping's timestamp, the node's own name as from, and the fresh
local clock value as its timestamp. -/
theorem claim_c5_ping_autoreply (name : String) (now : Nat) (peerId data : String)
    (messageHistory : List JObj) (message : JObj) (ts : Nat)
    (hparse : parseMessage data = some message)
    (htype : objGet message "type" = some (.str "ping"))
    (hts : objGet message "timestamp" = some (.num ts)) :
    sendCallsOf (handleIncomingMessage name now peerId data messageHistory).2
      = [(peerId, [("type", JVal.str "pong"), ("from", JVal.str name),
          ("originalTimestamp", JVal.num ts), ("timestamp", JVal.num now)])] := by
  simp only [handleIncomingMessage, hparse]
  simp only [processMessageByType, htype, handlePingMessage, hts, pongReply]
  simp [sendCallsOf]

/-- Claim C5 witness. -/
theorem claim_c5_ping_autoreply_witness :
    sendCallsOf (handleIncomingMessage "alice" 7 "p1"
        "\x7b\x22type\x22:\x22ping\x22,\x22from\x22:\x22bob\x22,\x22timestamp\x22:5\x7d" []).2
      = [("p1", [("type", JVal.str "pong"), ("from", JVal.str "alice"),
          ("originalTimestamp", JVal.num 5), ("timestamp", JVal.num 7)])] :=
  claim_c5_ping_autoreply "alice" 7 "p1"
    "\x7b\x22type\x22:\x22ping\x22,\x22from\x22:\x22bob\x22,\x22timestamp\x22:5\x7d" []
    [("type", JVal.str "ping"), ("from", JVal.str "bob"), ("timestamp", JVal.num 5)] 5
    (by decide) (by decide) (by decide)

/-! ## Helper lemmas for the lifecycle and history claims -/

/-- sendToPeer never changes the state in either branch. -/
theorem sendToPeer_preserves (s : AppState) (p : String) (m : JObj) :
    (sendToPeer s p m).1 = s := by
  rw [sendToPeer]
  cases mapGet s.connections p <;> rfl

/-- Object identities present after a Map.set: those already present, or
the one just inserted. -/
theorem mapSet_oid_mem (m : List (String × Conn)) (k : String) (c : Conn) (x : Nat)
    (h : x ∈ (mapSet m k c).map (fun pc => pc.2.oid)) :
    x ∈ m.map (fun pc => pc.2.oid) ∨ x = c.oid := by
  induction m with
  | nil =>
    right
    simpa [mapSet] using h
  | cons pc rest ih =>
    obtain ⟨k2, c2⟩ := pc
    rw [mapSet] at h
    by_cases hk : k2 = k
    · rw [if_pos hk] at h
      simp only [List.map_cons, List.mem_cons] at h
      rcases h with h | h
      · right; exact h
      · left; simp [h]
    · rw [if_neg hk] at h
      simp only [List.map_cons, List.mem_cons] at h
      rcases h with h | h
      · left; simp [h]
      · rcases ih h with h2 | h2
        · left; simp [h2]
        · right; exact h2

/-- Object identities present after a Map.delete: a subset of before. -/
theorem mapDelete_oid_mem (m : List (String × Conn)) (k : String) (x : Nat)
    (h : x ∈ (mapDelete m k).map (fun pc => pc.2.oid)) :
    x ∈ m.map (fun pc => pc.2.oid) := by
  induction m with
  | nil => simp [mapDelete] at h
  | cons pc rest ih =>
    obtain ⟨k2, c2⟩ := pc
    rw [mapDelete] at h
    by_cases hk : k2 = k
    · rw [if_pos hk] at h
      simp only [List.map_cons, List.mem_cons]
      right; exact h
    · rw [if_neg hk] at h
      simp only [List.map_cons, List.mem_cons] at h ⊢
      rcases h with h | h
      · left; exact h
      · right; exact ih h

/-- One step can only add the object identity carried by a connection
event; every other event leaves the set of registered identities the same
or smaller. -/
theorem step_oid_mem (name : String) (s : AppState) (e : Ev) (x : Nat)
    (h : x ∈ (step name s e).1.connections.map (fun pc => pc.2.oid)) :
    x ∈ s.connections.map (fun pc => pc.2.oid)
      ∨ ∃ conn now, e = Ev.connection conn now ∧ x = conn.oid := by
  cases e with
  | connection conn now =>
    rw [step, handleConnection] at h
    rw [sendToPeer_preserves] at h
    rw [registerConnection] at h
    rcases mapSet_oid_mem _ _ _ _ h with h2 | h2
    · exact Or.inl h2
    · exact Or.inr ⟨conn, now, rfl, h2⟩
  | data peerId payload now =>
    rw [step, connDataEvent] at h
    exact Or.inl h
  | close peerId =>
    rw [step, onConnectionClose] at h
    exact Or.inl (mapDelete_oid_mem _ _ _ h)
  | error peerId =>
    rw [step, onConnectionError] at h
    exact Or.inl h
  | userBroadcast text now =>
    rw [step, broadcast] at h
    exact Or.inl h
  | userPing now =>
    rw [step, pingAllPeers] at h
    exact Or.inl h
  | shutdown =>
    rw [step, closeAllConnections] at h
    exact Or.inl h

/-- Claim C7: every successfully decoded inbound message appends exactly
one entry to the history, and that append is the first effect of the
trace, ahead of every variant-specific reaction (including the pong
auto-reply); moreover no operation of the app ever mutates, removes or
reorders existing entries: every step only extends the history on the
right. -/
theorem claim_c7_history_append_only :
    (∀ (name : String) (now : Nat) (peerId data : String) (messageHistory : List JObj)
        (message : JObj), parseMessage data = some message →
        (handleIncomingMessage name now peerId data messageHistory).1
            = messageHistory ++ [historyEntry message peerId now]
          ∧ (handleIncomingMessage name now peerId data messageHistory).2
              = .histAppend (historyEntry message peerId now) :: .log .peer
                  :: processMessageByType name now peerId message)
      ∧ (∀ (name : String) (s : AppState) (e : Ev),
          ∃ t, (step name s e).1.messageHistory = s.messageHistory ++ t) := by
  constructor
  · intro name now peerId data messageHistory message hparse
    rw [handleIncomingMessage, hparse]
    exact ⟨rfl, rfl⟩
  · intro name s e
    cases e with
    | connection conn now =>
      refine ⟨[], ?_⟩
      rw [step, handleConnection, sendToPeer_preserves, registerConnection]
      simp
    | data peerId payload now =>
      cases hp : parseMessage payload with
      | none =>
        refine ⟨[], ?_⟩
        rw [step, connDataEvent, handleIncomingMessage, hp]
        simp
      | some msg =>
        refine ⟨[historyEntry msg peerId now], ?_⟩
        rw [step, connDataEvent, handleIncomingMessage, hp]
        rfl
    | close peerId => exact ⟨[], by rw [step, onConnectionClose]; simp⟩
    | error peerId => exact ⟨[], by rw [step, onConnectionError]; simp⟩
    | userBroadcast text now => exact ⟨[], by rw [step, broadcast]; simp⟩
    | userPing now => exact ⟨[], by rw [step, pingAllPeers]; simp⟩
    | shutdown => exact ⟨[], by rw [step, closeAllConnections]; simp⟩

/-- Claim C7 witness. -/
theorem claim_c7_history_append_only_witness :
    ((handleIncomingMessage "alice" 7 "p1"
          "\x7b\x22type\x22:\x22chat\x22,\x22from\x22:\x22bob\x22,\x22message\x22:\x22hey\x22,\x22timestamp\x22:3\x7d"
          []).1
        = [] ++ [historyEntry [("type", JVal.str "chat"), ("from", JVal.str "bob"),
            ("message", JVal.str "hey"), ("timestamp", JVal.num 3)] "p1" 7]
      ∧ (handleIncomingMessage "alice" 7 "p1"
          "\x7b\x22type\x22:\x22chat\x22,\x22from\x22:\x22bob\x22,\x22message\x22:\x22hey\x22,\x22timestamp\x22:3\x7d"
          []).2
        = .histAppend (historyEntry [("type", JVal.str "chat"), ("from", JVal.str "bob"),
            ("message", JVal.str "hey"), ("timestamp", JVal.num 3)] "p1" 7)
            :: .log .peer :: processMessageByType "alice" 7 "p1"
              [("type", JVal.str "chat"), ("from", JVal.str "bob"),
               ("message", JVal.str "hey"), ("timestamp", JVal.num 3)])
      ∧ (∃ t, (step "alice" ⟨[], []⟩ .shutdown).1.messageHistory = [] ++ t) :=
  ⟨claim_c7_history_append_only.1 "alice" 7 "p1" _ []
      [("type", JVal.str "chat"), ("from", JVal.str "bob"),
       ("message", JVal.str "hey"), ("timestamp", JVal.num 3)] (by decide),
   claim_c7_history_append_only.2 "alice" ⟨[], []⟩ .shutdown⟩

/-- Claim C8: a transport close event unregisters the session (Map.delete
on its identifier), an error event leaves the state entirely unchanged
(log only), and closure is terminal: once a connection object is out of
the registry, no sequence of further events re-registers it unless the
transport reports a brand new connection event carrying that very object
(fresh connections carry fresh identities). -/
theorem claim_c8_close_unregisters_error_logs :
    (∀ (s : AppState) (peerId : String),
        (onConnectionClose s peerId).1.connections = mapDelete s.connections peerId)
      ∧ (∀ (s : AppState) (peerId : String), (onConnectionError s peerId).1 = s)
      ∧ (∀ (name : String) (s : AppState) (evs : List Ev) (c : Conn),
          c.oid ∉ s.connections.map (fun pc => pc.2.oid) →
          (∀ conn now, Ev.connection conn now ∈ evs → conn.oid ≠ c.oid) →
          c.oid ∉ (run name s evs).connections.map (fun pc => pc.2.oid)) := by
  refine ⟨fun s peerId => rfl, fun s peerId => rfl, ?_⟩
  intro name s evs c
  induction evs generalizing s with
  | nil => intro h _; exact h
  | cons e evs ih =>
    intro h hfresh
    rw [run, List.foldl_cons]
    refine ih (step name s e).1 ?_ (fun conn now hm => hfresh conn now (List.mem_cons_of_mem _ hm))
    intro hmem
    rcases step_oid_mem name s e c.oid hmem with h2 | ⟨conn, now, he, hoid⟩
    · exact h h2
    · exact hfresh conn now (he ▸ List.mem_cons_self _ _) hoid.symm

/-- Claim C8 witness. -/
theorem claim_c8_close_unregisters_error_logs_witness :
    (onConnectionClose ⟨[("aa", ⟨1, [0xaa], true⟩)], []⟩ "aa").1.connections
        = mapDelete [("aa", ⟨1, [0xaa], true⟩)] "aa"
      ∧ (onConnectionError ⟨[("aa", ⟨1, [0xaa], true⟩)], []⟩ "aa").1
          = ⟨[("aa", ⟨1, [0xaa], true⟩)], []⟩
      ∧ ((2 : Nat) ∉ (run "alice" ⟨[], []⟩ [.close "aa", .userPing 3]).connections.map
          (fun pc => pc.2.oid)) :=
  ⟨claim_c8_close_unregisters_error_logs.1 ⟨[("aa", ⟨1, [0xaa], true⟩)], []⟩ "aa",
   claim_c8_close_unregisters_error_logs.2.1 ⟨[("aa", ⟨1, [0xaa], true⟩)], []⟩ "aa",
   claim_c8_close_unregisters_error_logs.2.2 "alice" ⟨[], []⟩ [.close "aa", .userPing 3]
     ⟨2, [0xbb], true⟩ (by decide) (by intro conn now hm; simp at hm)⟩

/-! ## Helper lemmas for the discovery poll claim -/

/-- The loop completes at most its remaining budget of waits beyond the
iterations already performed. -/
theorem discoveryIter_le (counts : Nat → Nat) (abortAt : Option Nat) :
    ∀ (r i : Nat), (discoveryIter counts abortAt i r).waitsCompleted ≤ i + r := by
  intro r
  induction r with
  | zero =>
    intro i
    rw [discoveryIter]
    simp
  | succ r ih =>
    intro i
    rw [discoveryIter]
    by_cases ha : abortAt = some i
    · rw [if_pos ha]
      simp only []
      omega
    · rw [if_neg ha]
      by_cases hc : counts i = 0
      · rw [if_pos hc]
        have := ih (i + 1)
        omega
      · rw [if_neg hc]
        simp only []
        omega

/-- When no abort fires and the count first becomes nonzero at iteration k
within the budget, the loop breaks right after wait k + 1. -/
theorem discoveryIter_found (counts : Nat → Nat) (k : Nat) (hk : counts k ≠ 0) :
    ∀ (r i : Nat), i ≤ k → k < i + r → (∀ j, i ≤ j → j < k → counts j = 0) →
      discoveryIter counts none i r = ⟨k + 1, .foundPeers, false⟩ := by
  intro r
  induction r with
  | zero => intro i h1 h2 _; omega
  | succ r ih =>
    intro i h1 h2 hzero
    rw [discoveryIter]
    rw [if_neg (by simp)]
    by_cases hik : i = k
    · subst hik
      rw [if_neg hk]
    · have hz : counts i = 0 := hzero i le_rfl (by omega)
      rw [if_pos hz]
      exact ih (i + 1) (by omega) (by omega) (fun j hj1 hj2 => hzero j (by omega) hj2)

/-- When the abort signal fires during wait k and no earlier check found a
peer, the loop ends with the cancelled outcome and no error log. -/
theorem discoveryIter_abort (counts : Nat → Nat) (k : Nat) :
    ∀ (r i : Nat), i ≤ k → k < i + r → (∀ j, i ≤ j → j < k → counts j = 0) →
      discoveryIter counts (some k) i r = ⟨k, .cancelled, false⟩ := by
  intro r
  induction r with
  | zero => intro i h1 h2 _; omega
  | succ r ih =>
    intro i h1 h2 hzero
    rw [discoveryIter]
    by_cases hik : i = k
    · subst hik
      rw [if_pos rfl]
      rfl
    · rw [if_neg (by simp; omega)]
      have hz : counts i = 0 := hzero i le_rfl (by omega)
      rw [if_pos hz]
      exact ih (i + 1) (by omega) (by omega) (fun j hj1 hj2 => hzero j (by omega) hj2)

/-- Claim C9: the discovery poll performs at most 6 wait iterations of 5
time units each, hence at most 30 time units, and being a total function
it always terminates; it exits the loop right after the first wait whose
check sees a registered session; and an abort during a wait ends it with
the cancelled outcome through the AbortError branch of the catch, which
logs at debug level, not as an error. -/
theorem claim_c9_discovery_poll_bounded :
    (∀ (counts : Nat → Nat) (abortAt : Option Nat),
        (startPeerDiscoveryCheck counts abortAt).waitsCompleted ≤ 6
          ∧ 5 * (startPeerDiscoveryCheck counts abortAt).waitsCompleted ≤ 30)
      ∧ (∀ (counts : Nat → Nat) (k : Nat), k < 6 → (∀ j, j < k → counts j = 0) →
          counts k ≠ 0 →
          startPeerDiscoveryCheck counts none = ⟨k + 1, .foundPeers, false⟩)
      ∧ (∀ (counts : Nat → Nat) (k : Nat), k < 6 → (∀ j, j < k → counts j = 0) →
          startPeerDiscoveryCheck counts (some k) = ⟨k, .cancelled, false⟩) := by
  refine ⟨fun counts abortAt => ?_, fun counts k hk hzero hnz => ?_, fun counts k hk hzero => ?_⟩
  · have := discoveryIter_le counts abortAt 6 0
    rw [startPeerDiscoveryCheck]
    omega
  · exact discoveryIter_found counts k hnz 6 0 (Nat.zero_le _) (by omega)
      (fun j _ hj => hzero j hj)
  · exact discoveryIter_abort counts k 6 0 (Nat.zero_le _) (by omega)
      (fun j _ hj => hzero j hj)

/-- Claim C9 witness. -/
theorem claim_c9_discovery_poll_bounded_witness :
    ((startPeerDiscoveryCheck (fun _ => 0) none).waitsCompleted ≤ 6
        ∧ 5 * (startPeerDiscoveryCheck (fun _ => 0) none).waitsCompleted ≤ 30)
      ∧ startPeerDiscoveryCheck (fun j => if j < 2 then 0 else 9) none
          = ⟨3, .foundPeers, false⟩
      ∧ startPeerDiscoveryCheck (fun _ => 0) (some 4) = ⟨4, .cancelled, false⟩ :=
  ⟨claim_c9_discovery_poll_bounded.1 (fun _ => 0) none,
   claim_c9_discovery_poll_bounded.2.1 (fun j => if j < 2 then 0 else 9) 2 (by omega)
     (fun j hj => by simp [hj]) (by decide),
   claim_c9_discovery_poll_bounded.2.2 (fun _ => 0) 4 (by omega) (fun j _ => rfl)⟩

end HyperswarmCLI
